import Mathlib

/-!
Verification development for the iLevel MCP server (ilevel-client.ts and the
server entry point): a JSON value model with the serializer used by
`JSON.stringify(v, null, 2)` and `JSON.stringify(v)`, a JSON parser for the
round-trip property, an HTTP-transport model of the axios client, and the
MCP dispatch/resource/startup layer.
-/

set_option maxHeartbeats 1000000

/-! ## JSON values

JSON-representable payloads, as produced by `JSON.parse` on a response body.
Numbers are modelled on the integer-valued fragment. Arrays and objects are
modelled by mutual inductives so that recursion over values stays structural.
-/

mutual

inductive Json where
  | null
  | bool (flag : Bool)
  | num (intVal : Int)
  | str (chars : String)
  | arr (elems : JsonItems)
  | obj (fields : JsonFields)
deriving Repr, DecidableEq

inductive JsonItems where
  | nil
  | cons (head : Json) (tail : JsonItems)
deriving Repr, DecidableEq

inductive JsonFields where
  | nil
  | cons (key : String) (value : Json) (tail : JsonFields)
deriving Repr, DecidableEq

end

def Json.isStr : Json → Bool
  | .str _ => true
  | _ => false

/-- Property lookup on a JSON object field list (first occurrence). -/
def JsonFields.lookupKey : JsonFields → String → Option Json
  | .nil, _ => none
  | .cons k v fs, key => if k = key then some v else fs.lookupKey key

/-- Property access `args[key]` on an argument bag; `none` models `undefined`. -/
def Json.getField (args : Json) (key : String) : Option Json :=
  match args with
  | .obj fs => fs.lookupKey key
  | _ => none

/-! ## Decimal digits (for serializing integer numbers) -/

def natToRevDigits : Nat → Nat → List Nat
  | 0, _ => []
  | fuel + 1, n => if n = 0 then [] else (n % 10) :: natToRevDigits fuel (n / 10)

def natChars (n : Nat) : List Char :=
  if n ≠ 0 then ((natToRevDigits n n).reverse.map fun d => Char.ofNat (48 + d))
  else ['0']

def renderInt : Int → List Char
  | .ofNat m => natChars m
  | .negSucc m => '-' :: natChars (m + 1)

/-! ## String escaping, as performed by `JSON.stringify` -/

def hexDigitChar (n : Nat) : Char :=
  Char.ofNat (if n < 10 then 48 + n else 87 + n)

def escapeChar (c : Char) : List Char :=
  if c = '"' then ['\\', '"']
  else if c = '\\' then ['\\', '\\']
  else if c = '\x08' then ['\\', 'b']
  else if c = '\t' then ['\\', 't']
  else if c = '\n' then ['\\', 'n']
  else if c = '\x0c' then ['\\', 'f']
  else if c = '\x0d' then ['\\', 'r']
  else if c.toNat < 32 then
    let t := c.toNat
    '\\' :: 'u' :: '0' :: '0' :: [hexDigitChar (t / 16), hexDigitChar (t % 16)]
  else [c]

def escapeList : List Char → List Char
  | [] => []
  | c :: cs => escapeChar c ++ escapeList cs

def renderString (s : String) : List Char :=
  List.cons '"' (escapeList s.data ++ ['"'])

/-! ## Pretty serializer: `JSON.stringify(v, null, 2)` -/

def indentChars (d : Nat) : List Char := List.replicate (2 * d) ' '

def litNull : List Char := "null".data

def litTrue : List Char := "true".data

def litFalse : List Char := "false".data

mutual

def renderValue : Json → Nat → List Char
  | .null, _ => litNull
  | .bool flag, _ => if flag then litTrue else litFalse
  | .num n, _ => renderInt n
  | .str s, _ => renderString s
  | .arr .nil, _ => ['[', ']']
  | .arr (.cons x xs), d =>
      '[' :: '\n' :: (renderItems (.cons x xs) (d + 1) ++ '\n' :: (indentChars d ++ [']']))
  | .obj .nil, _ => ['\x7b', '\x7d']
  | .obj (.cons k v fs), d =>
      '\x7b' :: '\n' :: (renderFields (.cons k v fs) (d + 1) ++ '\n' :: (indentChars d ++ ['\x7d']))

def renderItems : JsonItems → Nat → List Char
  | .nil, _ => []
  | .cons x .nil, d => indentChars d ++ renderValue x d
  | .cons x (.cons y ys), d =>
      indentChars d ++ (renderValue x d ++ ',' :: '\n' :: renderItems (.cons y ys) d)

def renderFields : JsonFields → Nat → List Char
  | .nil, _ => []
  | .cons k v .nil, d => indentChars d ++ (renderString k ++ ':' :: ' ' :: renderValue v d)
  | .cons k v (.cons k2 v2 fs), d =>
      indentChars d ++
        (renderString k ++ ':' :: ' ' :: (renderValue v d ++ ',' :: '\n' :: renderFields (.cons k2 v2 fs) d))

end

/-- The serialization `JSON.stringify(j, null, 2)`. -/
def stringifyJson (j : Json) : String := String.mk (renderValue j 0)

/-! ## Compact serializer: `JSON.stringify(v)` -/

mutual

def renderC : Json → List Char
  | .null => litNull
  | .bool flag => if flag then litTrue else litFalse
  | .num n => renderInt n
  | .str s => renderString s
  | .arr xs => '[' :: (renderCItems xs ++ [']'])
  | .obj fs => '\x7b' :: (renderCFields fs ++ ['\x7d'])

def renderCItems : JsonItems → List Char
  | .nil => []
  | .cons x .nil => renderC x
  | .cons x (.cons y ys) => renderC x ++ ',' :: renderCItems (.cons y ys)

def renderCFields : JsonFields → List Char
  | .nil => []
  | .cons k v .nil => renderString k ++ ':' :: renderC v
  | .cons k v (.cons k2 v2 fs) =>
      renderString k ++ ':' :: (renderC v ++ ',' :: renderCFields (.cons k2 v2 fs))

end

/-- The serialization `JSON.stringify(j)` (no indent), used in error messages. -/
def stringifyCompact (j : Json) : String := String.mk (renderC j)

/-! ## JavaScript string coercion (template literals, `Array.prototype.join`) -/

mutual

def jsElemString : Json → String
  | .null => ""
  | .bool true => "true"
  | .bool false => "false"
  | .num n => String.mk (renderInt n)
  | .str s => s
  | .arr items => jsArrString items
  | .obj _ => "[object Object]"

def jsArrString : JsonItems → String
  | .nil => ""
  | .cons x .nil => jsElemString x
  | .cons x (.cons y ys) => jsElemString x ++ "," ++ jsArrString (.cons y ys)

end

/-- JavaScript `String(v)` as used by template-literal interpolation. -/
def jsToString (v : Json) : String :=
  match v with
  | .null => "null"
  | _ => jsElemString v

/-! ## JSON parser (deserialization, for the round-trip property) -/

def jsonWs (c : Char) : Bool :=
  c = ' ' || c = '\n' || c = '\t' || c = '\x0d'

def skipWs : List Char → List Char
  | [] => []
  | c :: rest => if jsonWs c then skipWs rest else c :: rest

def digitVal (c : Char) : Nat := c.toNat - 48

def parseNat (cs : List Char) : Option (Nat × List Char) :=
  let ds := cs.takeWhile Char.isDigit
  if ds.isEmpty then none
  else some (ds.foldl (fun a c => a * 10 + digitVal c) 0, cs.dropWhile Char.isDigit)

def parseIntChars (cs : List Char) : Option (Int × List Char) :=
  match cs with
  | [] => none
  | c :: rest =>
    if c = '-' then (parseNat rest).map fun p => (-(p.1 : Int), p.2)
    else (parseNat (c :: rest)).map fun p => ((p.1 : Int), p.2)

def stripLit : List Char → List Char → Option (List Char)
  | [], cs => some cs
  | l :: ls, c :: cs => if c = l then stripLit ls cs else none
  | _ :: _, [] => none

def parseHex (c : Char) : Option Nat :=
  let v := c.toNat
  if c.isDigit then some (v - 48)
  else if 97 ≤ v ∧ v ≤ 102 then some (v - 87)
  else if 65 ≤ v ∧ v ≤ 70 then some (v - 55)
  else none

def unescapeChar (c : Char) : Option Char :=
  if c = '"' then some '"'
  else if c = '\\' then some '\\'
  else if c = '/' then some '/'
  else if c = 'b' then some '\x08'
  else if c = 'f' then some '\x0c'
  else if c = 'n' then some '\n'
  else if c = 'r' then some '\x0d'
  else if c = 't' then some '\t'
  else none

def parseStringBody : List Char → Option (List Char × List Char)
  | [] => none
  | c :: rest =>
    if c = '"' then some ([], rest)
    else if c = '\\' then
      match rest with
      | [] => none
      | e :: rest2 =>
        if e = 'u' then
          match rest2 with
          | a :: b :: c2 :: d2 :: rest3 =>
            match parseHex a, parseHex b, parseHex c2, parseHex d2, parseStringBody rest3 with
            | some va, some vb, some vc, some vd, some (tl, r) =>
                some (Char.ofNat (va * 4096 + vb * 256 + vc * 16 + vd) :: tl, r)
            | _, _, _, _, _ => none
          | _ => none
        else
          match unescapeChar e, parseStringBody rest2 with
          | some u, some (tl, r) => some (u :: tl, r)
          | _, _ => none
    else
      match parseStringBody rest with
      | some (tl, r) => some (c :: tl, r)
      | none => none

mutual

def parseValue : Nat → List Char → Option (Json × List Char)
  | 0, _ => none
  | fuel + 1, cs =>
    match skipWs cs with
    | [] => none
    | c :: rest =>
      if c = 'n' then
        match stripLit ['u', 'l', 'l'] rest with
        | some r => some (.null, r)
        | none => none
      else if c = 't' then
        match stripLit ['r', 'u', 'e'] rest with
        | some r => some (.bool true, r)
        | none => none
      else if c = 'f' then
        match stripLit ['a', 'l', 's', 'e'] rest with
        | some r => some (.bool false, r)
        | none => none
      else if c = '"' then
        match parseStringBody rest with
        | some (chars, r) => some (.str (String.mk chars), r)
        | none => none
      else if c = '[' then
        match skipWs rest with
        | [] => none
        | c2 :: r2 =>
          if c2 = ']' then some (.arr .nil, r2)
          else
            match parseItems fuel rest with
            | some (items, r) => some (.arr items, r)
            | none => none
      else if c = '\x7b' then
        match skipWs rest with
        | [] => none
        | c2 :: r2 =>
          if c2 = '\x7d' then some (.obj .nil, r2)
          else
            match parseFields fuel rest with
            | some (fs, r) => some (.obj fs, r)
            | none => none
      else
        match parseIntChars (c :: rest) with
        | some (n, r) => some (.num n, r)
        | none => none

def parseItems : Nat → List Char → Option (JsonItems × List Char)
  | 0, _ => none
  | fuel + 1, cs =>
    match parseValue fuel cs with
    | none => none
    | some (v, r) =>
      match skipWs r with
      | [] => none
      | c :: r2 =>
        if c = ',' then
          match parseItems fuel r2 with
          | some (vs, r3) => some (.cons v vs, r3)
          | none => none
        else if c = ']' then some (.cons v .nil, r2)
        else none

def parseFields : Nat → List Char → Option (JsonFields × List Char)
  | 0, _ => none
  | fuel + 1, cs =>
    match skipWs cs with
    | [] => none
    | c :: rest =>
      if c = '"' then
        match parseStringBody rest with
        | none => none
        | some (kchars, r1) =>
          match skipWs r1 with
          | [] => none
          | c2 :: r2 =>
            if c2 = ':' then
              match parseValue fuel r2 with
              | none => none
              | some (v, r3) =>
                match skipWs r3 with
                | [] => none
                | c3 :: r4 =>
                  if c3 = ',' then
                    match parseFields fuel r4 with
                    | some (fs, r5) => some (.cons (String.mk kchars) v fs, r5)
                    | none => none
                  else if c3 = '\x7d' then some (.cons (String.mk kchars) v .nil, r4)
                  else none
            else none
      else none

end

/-- The deserializer `JSON.parse`: parse one value, requiring full consumption. -/
def parseJsonText (s : String) : Option Json :=
  match parseValue (s.data.length + 1) s.data with
  | some (j, []) => some j
  | _ => none

/-! ## Fuel measure for the parser (structural size of a value) -/

mutual

def jsize : Json → Nat
  | .arr xs => 1 + jsizeItems xs
  | .obj fs => 1 + jsizeFields fs
  | _ => 1

def jsizeItems : JsonItems → Nat
  | .nil => 0
  | .cons x xs => 1 + jsize x + jsizeItems xs

def jsizeFields : JsonFields → Nat
  | .nil => 0
  | .cons _ v fs => 1 + jsize v + jsizeFields fs

end

/-! ## HTTP transport model (axios)

A transport maps a fully configured request to its outcome. `response`
carries the HTTP status and the parsed JSON body; axios resolves the
promise only for 2xx statuses (default `validateStatus`), rejects with
`error.response` set on any other status, rejects with `error.request`
set (and no response) on transport failure or timeout, and rejects with
only `error.message` when the request could not be set up.
-/

structure HttpRequest where
  method : String
  url : String
  username : String
  password : String
  contentType : String
  accept : String
  timeoutMs : Nat
  params : Option Json
  body : Option Json
deriving Repr, DecidableEq

inductive HttpResult where
  | response (status : Nat) (data : Json)
  | noResponse
  | setupFailure (message : String)
deriving Repr, DecidableEq

def HttpTransport : Type := HttpRequest → HttpResult

/-- Rejection shapes of an axios call: `error.response` present,
`error.request` present with no response, or neither. -/
inductive ClientError where
  | httpError (status : Nat) (data : Json)
  | noResponse
  | setupFailure (message : String)
deriving Repr, DecidableEq

/-- One axios request/response exchange (`this.client.get/post/...`). -/
def axiosSend (t : HttpTransport) (req : HttpRequest) : Except ClientError Json :=
  match t req with
  | .response status data =>
      if 200 ≤ status ∧ status < 300 then .ok data else .error (.httpError status data)
  | .noResponse => .error .noResponse
  | .setupFailure m => .error (.setupFailure m)

/-! ## ILevelClient (ilevel-client.ts) -/

structure ILevelConfig where
  baseUrl : String
  username : String
  password : String
  isSandbox : Option Bool := none
  apiVersion : Option String := none
deriving Repr, DecidableEq

structure ILevelClient where
  config : ILevelConfig
deriving Repr, DecidableEq

/-- The constructor: `this.config = ⦃apiVersion: 'v1', ...config⦄` builds a
fresh internal record (object spread copies, it never mutates the caller's
record), defaulting `apiVersion` to `"v1"` when the field is absent. -/
def mkClient (config : ILevelConfig) : ILevelClient :=
  ⟨{ config with apiVersion := some (config.apiVersion.getD "v1") }⟩

/-- The axios instance `baseURL`: `${baseUrl}/api/${apiVersion}`. -/
def ILevelClient.baseURL (c : ILevelClient) : String :=
  c.config.baseUrl ++ "/api/" ++ c.config.apiVersion.getD "v1"

def schemeTailChar (c : Char) : Bool :=
  c.isAlpha || c.isDigit || c = '+' || c = '-' || c = '.'

/-- Scans a scheme tail and requires `://` right after it (the rest of the
pattern below). -/
def hasSchemeSlashes : List Char → Bool
  | ':' :: '/' :: '/' :: _ => true
  | c :: rest => if schemeTailChar c then hasSchemeSlashes rest else false
  | [] => false

/-- The axios helper `isAbsoluteURL`: a URL matching
`^([a-z][a-z\d+\-.]*:)?\/\/` case-insensitively, i.e. one starting with
`//` or with `scheme://`. -/
def isAbsoluteURL (url : String) : Bool :=
  match url.data with
  | '/' :: '/' :: _ => true
  | c :: rest => if c.isAlpha then hasSchemeSlashes rest else false
  | [] => false

/-- The trailing-slash strip `baseURL.replace(/\/+$/, '')`. -/
def trimTrailingSlashes (s : String) : String :=
  String.mk ((s.data.reverse.dropWhile fun c => c = '/').reverse)

/-- The leading-slash strip `relativeURL.replace(/^\/+/, '')`. -/
def trimLeadingSlashes (s : String) : String :=
  String.mk (s.data.dropWhile fun c => c = '/')

/-- The axios helper `combineURLs`: join with a single slash when the relative
part is non-empty, else the base unchanged. -/
def combineURLs (baseURL relativeURL : String) : String :=
  if relativeURL ≠ "" then
    trimTrailingSlashes baseURL ++ "/" ++ trimLeadingSlashes relativeURL
  else baseURL

/-- The axios helper `buildFullPath`: a requested URL that is itself absolute
bypasses the instance base URL entirely. -/
def buildFullPath (baseURL requestedURL : String) : String :=
  if baseURL ≠ "" ∧ isAbsoluteURL requestedURL = false then
    combineURLs baseURL requestedURL
  else requestedURL

/-- Every outbound request as configured by `axios.create` (base URL, Basic
auth from username/password, JSON content-type/accept headers, fixed 30 s
timeout) plus the per-call method, path, query params and body. The URL is
resolved exactly as axios does, via `buildFullPath`. -/
def ILevelClient.buildRequest (c : ILevelClient) (method path : String)
    (params body : Option Json) : HttpRequest :=
  { method := method
    url := buildFullPath c.baseURL path
    username := c.config.username
    password := c.config.password
    contentType := "application/json"
    accept := "application/json"
    timeoutMs := 30000
    params := params
    body := body }

/-- A client method call: build the request, send it, record the request. -/
def ILevelClient.call (c : ILevelClient) (t : HttpTransport) (method path : String)
    (params body : Option Json) : Except ClientError Json × List HttpRequest :=
  let req := c.buildRequest method path params body
  (axiosSend t req, [req])

/-- `testConnection`: `GET /users`, any thrown error is swallowed to `false`. -/
def ILevelClient.testConnection (c : ILevelClient) (t : HttpTransport) :
    Bool × List HttpRequest :=
  let r := c.call t "GET" "/users" none none
  (match r.1 with | .ok _ => true | .error _ => false, r.2)

def ILevelClient.getUsers (c : ILevelClient) (t : HttpTransport) (params : Option Json) :=
  c.call t "GET" "/users" params none

def ILevelClient.getUser (c : ILevelClient) (t : HttpTransport) (userId : String) :=
  c.call t "GET" ("/users/" ++ userId) none none

def ILevelClient.getClients (c : ILevelClient) (t : HttpTransport) (params : Option Json) :=
  c.call t "GET" "/clients" params none

def ILevelClient.getClient (c : ILevelClient) (t : HttpTransport) (clientId : String) :=
  c.call t "GET" ("/clients/" ++ clientId) none none

def ILevelClient.getPortfolios (c : ILevelClient) (t : HttpTransport) (params : Option Json) :=
  c.call t "GET" "/webapp" params none

def ILevelClient.getAssets (c : ILevelClient) (t : HttpTransport) (params : Option Json) :=
  c.call t "GET" "/assets" params none

def ILevelClient.getFunds (c : ILevelClient) (t : HttpTransport) (params : Option Json) :=
  c.call t "GET" "/funds" params none

def ILevelClient.getInvestments (c : ILevelClient) (t : HttpTransport) (params : Option Json) :=
  c.call t "GET" "/investments" params none

def ILevelClient.getDocuments (c : ILevelClient) (t : HttpTransport) (params : Option Json) :=
  c.call t "GET" "/documents-api" params none

def ILevelClient.getDocument (c : ILevelClient) (t : HttpTransport) (documentId : String) :=
  c.call t "GET" ("/documents-api/" ++ documentId) none none

def ILevelClient.getValuations (c : ILevelClient) (t : HttpTransport) (params : Option Json) :=
  c.call t "GET" "/valuation-api" params none

def ILevelClient.createValuation (c : ILevelClient) (t : HttpTransport) (data : Option Json) :=
  c.call t "POST" "/valuation-api" none data

def ILevelClient.queryData (c : ILevelClient) (t : HttpTransport) (query : Option Json) :=
  c.call t "POST" "/data-retrieval" none query

def ILevelClient.getWebhooks (c : ILevelClient) (t : HttpTransport) :=
  c.call t "GET" "/webhooks" none none

def ILevelClient.createWebhook (c : ILevelClient) (t : HttpTransport) (data : Option Json) :=
  c.call t "POST" "/webhooks" none data

def ILevelClient.deleteWebhook (c : ILevelClient) (t : HttpTransport) (webhookId : String) :=
  c.call t "DELETE" ("/webhooks/" ++ webhookId) none none

def ILevelClient.getCalculations (c : ILevelClient) (t : HttpTransport) (params : Option Json) :=
  c.call t "GET" "/calcs-api" params none

/-- The generic passthrough `request(method, endpoint, data?)`. -/
def ILevelClient.genericRequest (c : ILevelClient) (t : HttpTransport)
    (method endpoint : String) (data : Option Json) :=
  c.call t method endpoint none data

/-! ## MCP layer (index.ts) -/

inductive ErrorCode where
  | parseError
  | invalidRequest
  | methodNotFound
  | invalidParams
  | internalError
deriving Repr, DecidableEq

def ErrorCode.num : ErrorCode → Int
  | .parseError => -32700
  | .invalidRequest => -32600
  | .methodNotFound => -32601
  | .invalidParams => -32602
  | .internalError => -32603

structure McpError where
  code : ErrorCode
  message : String
deriving Repr, DecidableEq

/-- The `Error.message` string of an SDK `McpError`:
`MCP error ⦃code⦄: ⦃message⦄`. -/
def mcpErrorText (e : McpError) : String :=
  "MCP error " ++ toString e.code.num ++ ": " ++ e.message

structure TextContent where
  type : String
  text : String
deriving Repr, DecidableEq

structure ToolResponse where
  content : List TextContent
deriving Repr, DecidableEq

/-- The text produced by `formatResponse`: a string payload is returned
verbatim, any other payload is serialized with `JSON.stringify(data, null, 2)`. -/
def formatText (data : Json) : String :=
  match data with
  | .str s => s
  | _ => stringifyJson data

def formatResponse (data : Json) : ToolResponse :=
  { content := [{ type := "text", text := formatText data }] }

/-- What the `catch` block receives: either an axios rejection or a thrown
SDK `McpError` (which has neither `error.response` nor `error.request`). -/
inductive CaughtError where
  | axios (e : ClientError)
  | mcp (e : McpError)
deriving Repr, DecidableEq

/-- `handleError`: branches on `error.response` / `error.request`; anything
else (including a thrown `McpError`) lands in the final branch and is
rewrapped as an internal error `Request failed: ⦃error.message⦄`. -/
def handleError : CaughtError → McpError
  | .axios (.httpError status data) =>
      ⟨.internalError, "iLevel API error: " ++ toString status ++ " - " ++ stringifyCompact data⟩
  | .axios .noResponse => ⟨.internalError, "No response received from iLevel API"⟩
  | .axios (.setupFailure m) => ⟨.internalError, "Request failed: " ++ m⟩
  | .mcp e => ⟨.internalError, "Request failed: " ++ mcpErrorText e⟩

/-- Reading a named argument interpolated into a template/URL:
`undefined` interpolates as the string `"undefined"`. -/
def getStrArg (args : Json) (key : String) : String :=
  match args.getField key with
  | some v => jsToString v
  | none => "undefined"

/-- The names of the 19 tools in the static catalog returned by the
`ListToolsRequestSchema` handler, in declaration order. -/
def toolCatalog : List String :=
  ["test_connection", "get_users", "get_user", "get_clients", "get_client",
   "get_portfolios", "get_assets", "get_funds", "get_investments",
   "get_documents", "get_document", "get_valuations", "create_valuation",
   "get_calculations", "query_data", "get_webhooks", "create_webhook",
   "delete_webhook", "custom_request"]

def testConnectionPayload (connected : Bool) : Json :=
  .obj (.cons "connected" (.bool connected)
    (.cons "message"
      (.str (if connected then "Successfully connected to iLevel API"
             else "Failed to connect to iLevel API")) .nil))

def mapFormat (r : Except ClientError Json × List HttpRequest) :
    Except ClientError ToolResponse × List HttpRequest :=
  (r.1.map formatResponse, r.2)

/-- The switch of the `CallToolRequestSchema` handler: `some` is a matched
case (its client call awaited and wrapped), `none` is the default branch. -/
def runTool (c : ILevelClient) (t : HttpTransport) (name : String) (args : Json) :
    Option (Except ClientError ToolResponse × List HttpRequest) :=
  if name = "test_connection" then
    let r := c.testConnection t
    some (.ok (formatResponse (testConnectionPayload r.1)), r.2)
  else if name = "get_users" then some (mapFormat (c.getUsers t (some args)))
  else if name = "get_user" then some (mapFormat (c.getUser t (getStrArg args "userId")))
  else if name = "get_clients" then some (mapFormat (c.getClients t (some args)))
  else if name = "get_client" then some (mapFormat (c.getClient t (getStrArg args "clientId")))
  else if name = "get_portfolios" then some (mapFormat (c.getPortfolios t (some args)))
  else if name = "get_assets" then some (mapFormat (c.getAssets t (args.getField "filters")))
  else if name = "get_funds" then some (mapFormat (c.getFunds t (args.getField "filters")))
  else if name = "get_investments" then some (mapFormat (c.getInvestments t (args.getField "filters")))
  else if name = "get_documents" then some (mapFormat (c.getDocuments t (some args)))
  else if name = "get_document" then some (mapFormat (c.getDocument t (getStrArg args "documentId")))
  else if name = "get_valuations" then some (mapFormat (c.getValuations t (args.getField "filters")))
  else if name = "create_valuation" then some (mapFormat (c.createValuation t (args.getField "data")))
  else if name = "get_calculations" then some (mapFormat (c.getCalculations t (args.getField "filters")))
  else if name = "query_data" then some (mapFormat (c.queryData t (args.getField "query")))
  else if name = "get_webhooks" then some (mapFormat (c.getWebhooks t))
  else if name = "create_webhook" then some (mapFormat (c.createWebhook t (some args)))
  else if name = "delete_webhook" then some (mapFormat (c.deleteWebhook t (getStrArg args "webhookId")))
  else if name = "custom_request" then
    some (mapFormat (c.genericRequest t (getStrArg args "method") (getStrArg args "endpoint")
      (args.getField "data")))
  else none

/-- The whole `CallToolRequestSchema` handler: try the switch (default branch
throws `McpError(MethodNotFound, ...)`), catch everything with `handleError`.
Returns the outcome plus the list of HTTP requests issued. -/
def callTool (c : ILevelClient) (t : HttpTransport) (name : String) (args : Json) :
    Except McpError ToolResponse × List HttpRequest :=
  match runTool c t name args with
  | some (.ok resp, trace) => (.ok resp, trace)
  | some (.error e, trace) => (.error (handleError (.axios e)), trace)
  | none => (.error (handleError (.mcp ⟨.methodNotFound, "Unknown tool: " ++ name⟩)), [])

/-! ## Resources (`ReadResourceRequestSchema` handler) -/

structure ResourceContent where
  uri : String
  mimeType : String
  text : String
deriving Repr, DecidableEq

structure ResourceResponse where
  contents : List ResourceContent
deriving Repr, DecidableEq

def withSandboxField (o : Option Bool) (rest : JsonFields) : JsonFields :=
  match o with
  | some b => .cons "isSandbox" (.bool b) rest
  | none => rest

/-- The object serialized for `ilevel://config`: baseUrl, username,
isSandbox, and `config.apiVersion || 'v1'` (a field whose value is
`undefined` is omitted by `JSON.stringify`). The password is not included. -/
def configSnapshotJson (config : ILevelConfig) : Json :=
  .obj (.cons "baseUrl" (.str config.baseUrl)
    (.cons "username" (.str config.username)
      (withSandboxField config.isSandbox
        (.cons "apiVersion" (.str (config.apiVersion.getD "v1")) .nil))))

/-- The `ReadResourceRequestSchema` handler: it never issues an HTTP request;
the single recognized URI returns the serialized configuration snapshot and
any other URI throws `McpError(InvalidRequest, ...)` (no enclosing catch). -/
def readResource (config : ILevelConfig) (uri : String) :
    Except McpError ResourceResponse × List HttpRequest :=
  if uri = "ilevel://config" then
    (.ok { contents := [{ uri := uri, mimeType := "application/json",
                          text := stringifyJson (configSnapshotJson config) }] }, [])
  else (.error ⟨.invalidRequest, "Unknown resource: " ++ uri⟩, [])

/-! ## Startup (environment validation and `main`) -/

structure ServerEnv where
  baseUrl : Option String
  username : Option String
  password : Option String
  sandbox : Option String
deriving Repr, DecidableEq

/-- The startup check `if (!ILEVEL_BASE_URL || !ILEVEL_USERNAME || !ILEVEL_PASSWORD)`
(an unset variable and the empty string are both falsy) followed by the
construction of the config record, which sets no `apiVersion` field and sets
`isSandbox` to `ILEVEL_SANDBOX === 'true'`. -/
def validateEnv (env : ServerEnv) : Option ILevelConfig :=
  match env.baseUrl, env.username, env.password with
  | some b, some u, some p =>
    if b = "" || u = "" || p = "" then none
    else some { baseUrl := b, username := u, password := p,
                isSandbox := some (env.sandbox = some "true"), apiVersion := none }
  | _, _, _ => none

inductive StartupResult where
  | exited (code : Nat)
  | running (connected : Bool)
deriving Repr, DecidableEq

/-- Process startup: on missing required environment input the process exits
with code 1 before constructing the client; otherwise the client is built and
`main` issues the startup connectivity probe. -/
def startServer (env : ServerEnv) (t : HttpTransport) : StartupResult × List HttpRequest :=
  match validateEnv env with
  | none => (.exited 1, [])
  | some config =>
    let probe := (mkClient config).testConnection t
    (.running probe.1, probe.2)

/-- A hypothesis-free predicate: `needle` occurs contiguously in `hay`. -/
def containsSub (hay needle : String) : Prop :=
  ∃ pre post, hay = pre ++ needle ++ post

/-- Whether a character list is empty or starts with a non-digit
(what follows a rendered number in a serialized document). -/
def noDigitHead (cs : List Char) : Bool :=
  match cs with
  | c :: _ => !c.isDigit
  | [] => true

/-! ## Concrete inputs used by witnesses -/

def cfg0 : ILevelConfig :=
  { baseUrl := "https://clients.example.test", username := "user",
    password := "secret", isSandbox := some false, apiVersion := none }

def transport0 : HttpTransport := fun _ => .noResponse

def payload123 : Json :=
  .obj (.cons "id" (.str "123") (.cons "name" (.str "Acme") .nil))

def args123 : Json := .obj (.cons "userId" (.str "123") .nil)

def userReq123 (cfg : ILevelConfig) : HttpRequest :=
  (mkClient cfg).buildRequest "GET" "/users/123" none none

def transport123 : HttpTransport := fun _ => .response 200 payload123

def argsEvil : Json :=
  .obj (.cons "method" (.str "GET")
    (.cons "endpoint" (.str "https://evil.example/x") .nil))

def envMissing : ServerEnv :=
  ⟨some "https://clients.example.test", some "user", none, none⟩

def envOk : ServerEnv :=
  ⟨some "https://clients.example.test", some "user", some "secret", some "false"⟩

def cfgOk : ILevelConfig :=
  ⟨"https://clients.example.test", "user", "secret", some false, none⟩

/-! ## Helper lemmas: strings and whitespace -/

theorem string_mk_data (s : String) : String.mk s.data = s := by
  cases s
  rfl

theorem string_append_assoc (a b c : String) : a ++ b ++ c = a ++ (b ++ c) := by
  apply String.ext
  simp [String.data_append, List.append_assoc]

theorem string_append_nil (a : String) : a ++ "" = a := by
  apply String.ext
  simp [String.data_append]

theorem containsSub_right (a b : String) : containsSub (a ++ b) b :=
  ⟨a, "", by rw [string_append_nil]⟩

theorem containsSub_middle (a b c : String) : containsSub (a ++ b ++ c) b :=
  ⟨a, c, rfl⟩

theorem string_length_append (a b : String) : (a ++ b).length = a.length + b.length := by
  show (a ++ b).data.length = a.data.length + b.data.length
  rw [String.data_append, List.length_append]

theorem append_ne_empty_left (p s : String) (hp : p ≠ "") : p ++ s ≠ "" := by
  intro h
  apply hp
  have hl := congrArg String.length h
  rw [string_length_append] at hl
  rw [show ("" : String).length = 0 from rfl] at hl
  have hd : p.data.length + s.data.length = 0 := hl
  apply String.ext
  rw [List.length_eq_zero.mp (show p.data.length = 0 by omega)]

theorem append_ne_empty_right (p s : String) (hs : s ≠ "") : p ++ s ≠ "" := by
  intro h
  apply hs
  have hl := congrArg String.length h
  rw [string_length_append] at hl
  rw [show ("" : String).length = 0 from rfl] at hl
  have hd : p.data.length + s.data.length = 0 := hl
  apply String.ext
  rw [List.length_eq_zero.mp (show s.data.length = 0 by omega)]

theorem clientBaseURL_ne_empty (cfg : ILevelConfig) : (mkClient cfg).baseURL ≠ "" := by
  show (mkClient cfg).config.baseUrl ++ "/api/"
      ++ (mkClient cfg).config.apiVersion.getD "v1" ≠ ""
  exact append_ne_empty_left _ _ (append_ne_empty_right _ _ (by decide))

theorem trimTrailing_decomp (s : String) : ∃ t, s = trimTrailingSlashes s ++ t := by
  refine ⟨String.mk ((s.data.reverse.takeWhile fun c => c = '/').reverse), ?_⟩
  apply String.ext
  rw [String.data_append]
  show s.data = ((s.data.reverse.dropWhile fun c => c = '/').reverse)
      ++ ((s.data.reverse.takeWhile fun c => c = '/').reverse)
  rw [← List.reverse_append, List.takeWhile_append_dropWhile, List.reverse_reverse]

theorem trimTrailing_append_v1 (x : String) :
    trimTrailingSlashes (x ++ "v1") = x ++ "v1" := by
  apply String.ext
  show (((x ++ "v1").data.reverse.dropWhile fun c => c = '/').reverse) = (x ++ "v1").data
  rw [String.data_append, show ("v1" : String).data = ['v', '1'] from rfl]
  simp [List.dropWhile]

theorem buildFullPath_relative (base path : String) (hb : base ≠ "")
    (ha : isAbsoluteURL path = false) (hp : path ≠ "") :
    buildFullPath base path
      = trimTrailingSlashes base ++ ("/" ++ trimLeadingSlashes path) := by
  unfold buildFullPath
  rw [if_pos (And.intro hb ha)]
  unfold combineURLs
  rw [if_pos hp]
  rw [string_append_assoc]

theorem skipWs_cons_ws {c : Char} (h : jsonWs c = true) (cs : List Char) :
    skipWs (c :: cs) = skipWs cs := by
  simp [skipWs, h]

theorem skipWs_cons_not {c : Char} (h : jsonWs c = false) (cs : List Char) :
    skipWs (c :: cs) = c :: cs := by
  simp [skipWs, h]

theorem skipWs_replicate_space (k : Nat) (cs : List Char) :
    skipWs (List.replicate k ' ' ++ cs) = skipWs cs := by
  induction k with
  | zero => rfl
  | succ m ih =>
    rw [List.replicate_succ, List.cons_append, skipWs_cons_ws (by decide)]
    exact ih

theorem skipWs_indentChars (d : Nat) (cs : List Char) :
    skipWs (indentChars d ++ cs) = skipWs cs :=
  skipWs_replicate_space (2 * d) cs

theorem skipWs_newline (cs : List Char) : skipWs ('\n' :: cs) = skipWs cs :=
  skipWs_cons_ws (by decide) cs

/-! ## Helper lemmas: digits and numbers -/

theorem natToRevDigits_eq_digits :
    ∀ fuel n, n ≤ fuel → natToRevDigits fuel n = Nat.digits 10 n := by
  intro fuel
  induction fuel with
  | zero =>
    intro n hn
    interval_cases n
    simp [natToRevDigits]
  | succ m ih =>
    intro n hn
    by_cases h0 : n = 0
    · subst h0
      simp [natToRevDigits]
    · rw [natToRevDigits, if_neg h0,
        Nat.digits_def' (b := 10) (by norm_num) (Nat.pos_of_ne_zero h0),
        ih (n / 10) ?_]
      have : n / 10 < n := Nat.div_lt_self (Nat.pos_of_ne_zero h0) (by norm_num)
      omega

theorem natToRevDigits_lt_ten (fuel n : Nat) :
    ∀ d ∈ natToRevDigits fuel n, d < 10 := by
  induction fuel generalizing n with
  | zero => intro d hd; simp [natToRevDigits] at hd
  | succ m ih =>
    intro d hd
    rw [natToRevDigits] at hd
    by_cases h0 : n = 0
    · simp [h0] at hd
    · rw [if_neg h0] at hd
      rcases List.mem_cons.mp hd with h | h
      · subst h; exact Nat.mod_lt _ (by norm_num)
      · exact ih _ _ h

theorem digit_char_facts :
    ∀ d, d < 10 → (Char.ofNat (48 + d)).isDigit = true ∧
      digitVal (Char.ofNat (48 + d)) = d := by decide

theorem natChars_all_digit (n : Nat) : ∀ c ∈ natChars n, c.isDigit = true := by
  intro c hc
  unfold natChars at hc
  by_cases h0 : n = 0
  · rw [if_neg (not_not_intro h0)] at hc
    simp at hc
    subst hc
    decide
  · rw [if_pos h0] at hc
    rcases List.mem_map.mp hc with ⟨d, hd, rfl⟩
    exact (digit_char_facts d (natToRevDigits_lt_ten n n d (List.mem_reverse.mp hd))).1

theorem natChars_ne_nil (n : Nat) : natChars n ≠ [] := by
  unfold natChars
  by_cases h0 : n = 0
  · rw [if_neg (not_not_intro h0)]; simp
  · rw [if_pos h0]
    simp only [ne_eq, List.map_eq_nil_iff, List.reverse_eq_nil_iff]
    intro h
    have hn : 0 < n := Nat.pos_of_ne_zero h0
    obtain ⟨m, rfl⟩ : ∃ m, n = m + 1 := ⟨n - 1, by omega⟩
    rw [natToRevDigits, if_neg h0] at h
    exact List.noConfusion h

theorem foldl_digit_chars (ds : List Nat) (hlt : ∀ d ∈ ds, d < 10) :
    ∀ a, ((ds.reverse.map fun d => Char.ofNat (48 + d)).foldl
      (fun a c => a * 10 + digitVal c) a) = a * 10 ^ ds.length + Nat.ofDigits 10 ds := by
  induction ds with
  | nil => intro a; simp [Nat.ofDigits]
  | cons d ds ih =>
    intro a
    have hd : d < 10 := hlt d (List.mem_cons_self d ds)
    have hds : ∀ x ∈ ds, x < 10 := fun x hx => hlt x (List.mem_cons_of_mem d hx)
    rw [List.reverse_cons, List.map_append, List.foldl_append, ih hds a]
    simp only [List.map_cons, List.map_nil, List.foldl_cons, List.foldl_nil]
    rw [(digit_char_facts d hd).2, Nat.ofDigits_cons]
    simp only [List.length_cons, pow_succ]
    ring

theorem takeWhile_all_append {p : Char → Bool} (l rest : List Char)
    (hall : ∀ c ∈ l, p c = true)
    (hrest : rest = [] ∨ ∃ c cs, rest = c :: cs ∧ p c = false) :
    (l ++ rest).takeWhile p = l ∧ (l ++ rest).dropWhile p = rest := by
  induction l with
  | nil =>
    rcases hrest with rfl | ⟨c, cs, rfl, hc⟩
    · exact ⟨rfl, rfl⟩
    · constructor
      · simp [List.takeWhile_cons, hc]
      · simp [List.dropWhile_cons, hc]
  | cons c cs ih =>
    have hc : p c = true := hall c (List.mem_cons_self c cs)
    have hcs : ∀ x ∈ cs, p x = true := fun x hx => hall x (List.mem_cons_of_mem c hx)
    obtain ⟨h1, h2⟩ := ih hcs
    constructor
    · rw [List.cons_append, List.takeWhile_cons, hc]
      simp [h1]
    · rw [List.cons_append, List.dropWhile_cons, hc]
      simp [h2]

theorem natChars_foldl (n : Nat) :
    (natChars n).foldl (fun a c => a * 10 + digitVal c) 0 = n := by
  by_cases h0 : n = 0
  · subst h0; decide
  · unfold natChars
    rw [if_pos h0,
      foldl_digit_chars (natToRevDigits n n) (natToRevDigits_lt_ten n n) 0,
      natToRevDigits_eq_digits n n le_rfl, Nat.ofDigits_digits]
    ring

theorem parseNat_natChars (n : Nat) (rest : List Char) (hrest : noDigitHead rest = true) :
    parseNat (natChars n ++ rest) = some (n, rest) := by
  have hall := natChars_all_digit n
  have hrest' : rest = [] ∨ ∃ c cs, rest = c :: cs ∧ c.isDigit = false := by
    cases rest with
    | nil => exact Or.inl rfl
    | cons c cs => exact Or.inr ⟨c, cs, rfl, by simpa [noDigitHead] using hrest⟩
  obtain ⟨htake, hdrop⟩ := takeWhile_all_append (natChars n) rest hall hrest'
  unfold parseNat
  simp only [htake, hdrop, List.isEmpty_iff]
  rw [if_neg (natChars_ne_nil n), natChars_foldl]

theorem isDigit_not_special {c : Char} (h : c.isDigit = true) :
    jsonWs c = false ∧ c ≠ '-' ∧ c ≠ ']' ∧ c ≠ '\x7d' ∧ c ≠ 'n' ∧ c ≠ 'f' ∧
      c ≠ 't' ∧ c ≠ '"' ∧ c ≠ '\x7b' ∧ c ≠ '[' := by
  have hne : ∀ x : Char, x.isDigit = false → c ≠ x := by
    intro x hx he
    subst he
    rw [h] at hx
    exact Bool.noConfusion hx
  have hws : jsonWs c = false := by
    cases hw : jsonWs c
    · rfl
    · exfalso
      simp only [jsonWs, Bool.or_eq_true, decide_eq_true_eq] at hw
      rcases hw with ((hc | hc) | hc) | hc <;> subst hc <;> simp [Char.isDigit] at h
  exact ⟨hws, hne '-' rfl, hne ']' rfl, hne '\x7d' rfl, hne 'n' rfl,
    hne 'f' rfl, hne 't' rfl, hne '"' rfl, hne '\x7b' rfl, hne '[' rfl⟩

theorem natChars_head (n : Nat) :
    ∃ c t, natChars n = c :: t ∧ c.isDigit = true := by
  rcases hn : natChars n with _ | ⟨c, t⟩
  · exact absurd hn (natChars_ne_nil n)
  · exact ⟨c, t, rfl, natChars_all_digit n c (hn ▸ List.mem_cons_self c t)⟩

theorem parseIntChars_renderInt (n : Int) (rest : List Char)
    (hrest : noDigitHead rest = true) :
    parseIntChars (renderInt n ++ rest) = some (n, rest) := by
  cases n with
  | ofNat m =>
    obtain ⟨c, t, hct, hdig⟩ := natChars_head m
    rw [renderInt, hct, List.cons_append, parseIntChars,
      if_neg (isDigit_not_special hdig).2.1, ← List.cons_append, ← hct,
      parseNat_natChars m rest hrest]
    rfl
  | negSucc m =>
    rw [renderInt, List.cons_append, parseIntChars, if_pos rfl,
      parseNat_natChars (m + 1) rest hrest]
    simp [Int.negSucc_eq]

/-! ## Helper lemmas: string escaping round-trip -/

theorem parseHex_hexDigitChar : ∀ m, m < 16 → parseHex (hexDigitChar m) = some m := by
  decide

theorem parseStringBody_escape (l rest : List Char) :
    parseStringBody (escapeList l ++ '"' :: rest) = some (l, rest) := by
  induction l with
  | nil =>
    rw [escapeList, List.nil_append, parseStringBody.eq_def]
    simp
  | cons c l ih =>
    rw [escapeList, List.append_assoc]
    by_cases h1 : c = '"'
    · subst h1
      have he : escapeChar '"' = ['\\', '"'] := by decide
      rw [he]
      simp only [List.cons_append, List.nil_append]
      rw [parseStringBody.eq_def]
      simp [unescapeChar, ih]
    · by_cases h2 : c = '\\'
      · subst h2
        have he : escapeChar '\\' = ['\\', '\\'] := by decide
        rw [he]
        simp only [List.cons_append, List.nil_append]
        rw [parseStringBody.eq_def]
        simp [unescapeChar, ih]
      · by_cases h3 : c = '\x08'
        · subst h3
          have he : escapeChar '\x08' = ['\\', 'b'] := by decide
          rw [he]
          simp only [List.cons_append, List.nil_append]
          rw [parseStringBody.eq_def]
          simp [unescapeChar, ih]
        · by_cases h4 : c = '\t'
          · subst h4
            have he : escapeChar '\t' = ['\\', 't'] := by decide
            rw [he]
            simp only [List.cons_append, List.nil_append]
            rw [parseStringBody.eq_def]
            simp [unescapeChar, ih]
          · by_cases h5 : c = '\n'
            · subst h5
              have he : escapeChar '\n' = ['\\', 'n'] := by decide
              rw [he]
              simp only [List.cons_append, List.nil_append]
              rw [parseStringBody.eq_def]
              simp [unescapeChar, ih]
            · by_cases h6 : c = '\x0c'
              · subst h6
                have he : escapeChar '\x0c' = ['\\', 'f'] := by decide
                rw [he]
                simp only [List.cons_append, List.nil_append]
                rw [parseStringBody.eq_def]
                simp [unescapeChar, ih]
              · by_cases h7 : c = '\x0d'
                · subst h7
                  have he : escapeChar '\x0d' = ['\\', 'r'] := by decide
                  rw [he]
                  simp only [List.cons_append, List.nil_append]
                  rw [parseStringBody.eq_def]
                  simp [unescapeChar, ih]
                · by_cases h8 : c.toNat < 32
                  · rw [escapeChar, if_neg h1, if_neg h2, if_neg h3, if_neg h4,
                      if_neg h5, if_neg h6, if_neg h7, if_pos h8]
                    have hdiv : c.toNat / 16 < 16 := by omega
                    have hmod : c.toNat % 16 < 16 := Nat.mod_lt _ (by norm_num)
                    have hp0 : parseHex '0' = some 0 := by decide
                    simp only [List.cons_append, List.nil_append]
                    rw [parseStringBody.eq_def]
                    simp [hp0, parseHex_hexDigitChar _ hdiv,
                      parseHex_hexDigitChar _ hmod, ih]
                    have h16 : c.toNat / 16 * 16 + c.toNat % 16 = c.toNat := by omega
                    rw [h16, Char.ofNat_toNat]
                  · rw [escapeChar, if_neg h1, if_neg h2, if_neg h3, if_neg h4,
                      if_neg h5, if_neg h6, if_neg h7, if_neg h8]
                    simp only [List.cons_append, List.nil_append]
                    rw [parseStringBody.eq_def]
                    simp [h1, h2, ih]

/-! ## Helper lemmas: heads of rendered output -/

theorem renderValue_head (j : Json) (d : Nat) :
    ∃ c t, renderValue j d = c :: t ∧ jsonWs c = false ∧ c ≠ ']' ∧ c ≠ '\x7d' := by
  cases j with
  | null =>
    have hq : jsonWs 'n' = false ∧ 'n' ≠ ']' ∧ 'n' ≠ '\x7d' := by decide
    exact ⟨'n', ['u', 'l', 'l'], by simp [renderValue.eq_def, litNull],
      hq.1, hq.2.1, hq.2.2⟩
  | bool b =>
    cases b with
    | false =>
      have hq : jsonWs 'f' = false ∧ 'f' ≠ ']' ∧ 'f' ≠ '\x7d' := by decide
      exact ⟨'f', ['a', 'l', 's', 'e'], by simp [renderValue.eq_def, litFalse],
        hq.1, hq.2.1, hq.2.2⟩
    | true =>
      have hq : jsonWs 't' = false ∧ 't' ≠ ']' ∧ 't' ≠ '\x7d' := by decide
      exact ⟨'t', ['r', 'u', 'e'], by simp [renderValue.eq_def, litTrue],
        hq.1, hq.2.1, hq.2.2⟩
  | num n =>
    cases n with
    | ofNat m =>
      obtain ⟨c, t, hct, hd⟩ := natChars_head m
      obtain ⟨hws, _, h9, h10, _⟩ := isDigit_not_special hd
      refine ⟨c, t, ?_, hws, h9, h10⟩
      rw [renderValue.eq_def]
      simp only [renderInt.eq_def]
      exact hct
    | negSucc m =>
      have hq : jsonWs '-' = false ∧ '-' ≠ ']' ∧ '-' ≠ '\x7d' := by decide
      refine ⟨'-', natChars (m + 1), ?_, hq.1, hq.2.1, hq.2.2⟩
      rw [renderValue.eq_def]
      simp [renderInt.eq_def]
  | str s =>
    have hq : jsonWs '"' = false ∧ '"' ≠ ']' ∧ '"' ≠ '\x7d' := by decide
    refine ⟨'"', escapeList s.data ++ ['"'], ?_, hq.1, hq.2.1, hq.2.2⟩
    rw [renderValue.eq_def]
    simp [renderString]
  | arr xs =>
    have hq : jsonWs '[' = false ∧ '[' ≠ ']' ∧ '[' ≠ '\x7d' := by decide
    cases xs with
    | nil => exact ⟨'[', _, by rw [renderValue.eq_def], hq.1, hq.2.1, hq.2.2⟩
    | cons x xs => exact ⟨'[', _, by rw [renderValue.eq_def], hq.1, hq.2.1, hq.2.2⟩
  | obj fs =>
    have hq : jsonWs '\x7b' = false ∧ '\x7b' ≠ ']' ∧ '\x7b' ≠ '\x7d' := by decide
    cases fs with
    | nil => exact ⟨'\x7b', _, by rw [renderValue.eq_def], hq.1, hq.2.1, hq.2.2⟩
    | cons k v fs =>
      exact ⟨'\x7b', _, by rw [renderValue.eq_def], hq.1, hq.2.1, hq.2.2⟩

theorem skipWs_render_append (j : Json) (d : Nat) (tail : List Char) :
    skipWs (renderValue j d ++ tail) = renderValue j d ++ tail := by
  obtain ⟨c, t, hct, hws, _, _⟩ := renderValue_head j d
  rw [hct, List.cons_append, skipWs_cons_not hws]

theorem skipWs_renderItems_head (x : Json) (xs : JsonItems) (d : Nat) (tail : List Char) :
    ∃ c t, skipWs (renderItems (.cons x xs) d ++ tail) = c :: t ∧ c ≠ ']' ∧ c ≠ '\x7d' := by
  obtain ⟨c, t, hct, hws, h1, h2⟩ := renderValue_head x d
  cases xs with
  | nil =>
    refine ⟨c, t ++ tail, ?_, h1, h2⟩
    rw [renderItems.eq_def]
    simp only [List.append_assoc]
    rw [skipWs_indentChars, hct, List.cons_append, skipWs_cons_not hws]
  | cons y ys =>
    refine ⟨c, t ++ (',' :: '\n' :: renderItems (.cons y ys) d ++ tail), ?_, h1, h2⟩
    rw [renderItems.eq_def]
    simp only [List.append_assoc, List.cons_append]
    rw [skipWs_indentChars, hct, List.cons_append, skipWs_cons_not hws]

theorem skipWs_renderFields_head (k : String) (v : Json) (fs : JsonFields) (d : Nat)
    (tail : List Char) :
    ∃ t, skipWs (renderFields (.cons k v fs) d ++ tail)
      = '"' :: (escapeList k.data ++ '"' :: t) := by
  cases fs with
  | nil =>
    refine ⟨':' :: ' ' :: renderValue v d ++ tail, ?_⟩
    rw [renderFields.eq_def]
    simp only [List.append_assoc]
    rw [skipWs_indentChars, renderString]
    rw [List.cons_append, skipWs_cons_not (by decide)]
    simp [List.append_assoc]
  | cons k2 v2 fs2 =>
    refine ⟨':' :: ' ' :: (renderValue v d ++ ',' :: '\n' ::
      renderFields (.cons k2 v2 fs2) d) ++ tail, ?_⟩
    rw [renderFields.eq_def]
    simp only [List.append_assoc]
    rw [skipWs_indentChars, renderString]
    rw [List.cons_append, skipWs_cons_not (by decide)]
    simp [List.append_assoc]

theorem parseValue_congr (fuel : Nat) (cs1 cs2 : List Char) (h : skipWs cs1 = skipWs cs2) :
    parseValue fuel cs1 = parseValue fuel cs2 := by
  cases fuel with
  | zero => rfl
  | succ f =>
    conv_lhs => rw [parseValue.eq_def]
    conv_rhs => rw [parseValue.eq_def]
    simp only [h]

theorem parseFields_congr (fuel : Nat) (cs1 cs2 : List Char) (h : skipWs cs1 = skipWs cs2) :
    parseFields fuel cs1 = parseFields fuel cs2 := by
  cases fuel with
  | zero => rfl
  | succ f =>
    conv_lhs => rw [parseFields.eq_def]
    conv_rhs => rw [parseFields.eq_def]
    simp only [h]

/-! ## Size equations and the master round-trip lemma -/

theorem jsize_arr (l : JsonItems) : jsize (.arr l) = 1 + jsizeItems l := by
  rw [jsize.eq_def]

theorem jsize_obj (l : JsonFields) : jsize (.obj l) = 1 + jsizeFields l := by
  rw [jsize.eq_def]

theorem jsizeItems_cons (x : Json) (xs : JsonItems) :
    jsizeItems (.cons x xs) = 1 + jsize x + jsizeItems xs := by
  rw [jsizeItems.eq_def]

theorem jsizeFields_cons (k : String) (v : Json) (fs : JsonFields) :
    jsizeFields (.cons k v fs) = 1 + jsize v + jsizeFields fs := by
  rw [jsizeFields.eq_def]

theorem jsize_pos (j : Json) : 1 ≤ jsize j := by
  cases j <;> simp [jsize.eq_def]

theorem noDigitHead_cons (c : Char) (cs : List Char) :
    noDigitHead (c :: cs) = !c.isDigit := rfl

theorem renderString_def (s : String) :
    renderString s = '"' :: (escapeList s.data ++ ['"']) := rfl

theorem parse_render_master (fuel : Nat) :
    (∀ j d rest, jsize j ≤ fuel → noDigitHead rest = true →
      parseValue fuel (renderValue j d ++ rest) = some (j, rest)) ∧
    (∀ x xs d k rest, jsizeItems (.cons x xs) ≤ fuel →
      parseItems fuel ('\n' :: (renderItems (.cons x xs) d ++
        '\n' :: (List.replicate k ' ' ++ ']' :: rest))) = some (.cons x xs, rest)) ∧
    (∀ ky v fs d k rest, jsizeFields (.cons ky v fs) ≤ fuel →
      parseFields fuel ('\n' :: (renderFields (.cons ky v fs) d ++
        '\n' :: (List.replicate k ' ' ++ '\x7d' :: rest))) = some (.cons ky v fs, rest)) := by
  induction fuel with
  | zero =>
    refine And.intro ?_ (And.intro ?_ ?_)
    · intro j d rest hsz _
      have := jsize_pos j
      omega
    · intro x xs d k rest hsz
      rw [jsizeItems_cons] at hsz
      omega
    · intro ky v fs d k rest hsz
      rw [jsizeFields_cons] at hsz
      omega
  | succ fuel ih =>
    obtain ⟨ihV, ihI, ihF⟩ := ih
    refine And.intro ?_ (And.intro ?_ ?_)
    · -- values
      intro j d rest hsz hrest
      cases j with
      | null =>
        have hr : renderValue Json.null d = ['n', 'u', 'l', 'l'] := by
          simp [renderValue.eq_def, litNull]
        rw [hr, parseValue.eq_def]
        simp only [List.cons_append, List.nil_append]
        rw [skipWs_cons_not (by decide)]
        simp [stripLit]
      | bool b =>
        cases b with
        | false =>
          have hr : renderValue (Json.bool false) d = ['f', 'a', 'l', 's', 'e'] := by
            simp [renderValue.eq_def, litFalse]
          rw [hr, parseValue.eq_def]
          simp only [List.cons_append, List.nil_append]
          rw [skipWs_cons_not (by decide)]
          simp [stripLit]
        | true =>
          have hr : renderValue (Json.bool true) d = ['t', 'r', 'u', 'e'] := by
            simp [renderValue.eq_def, litTrue]
          rw [hr, parseValue.eq_def]
          simp only [List.cons_append, List.nil_append]
          rw [skipWs_cons_not (by decide)]
          simp [stripLit]
      | num n =>
        have hr : renderValue (Json.num n) d = renderInt n := by
          rw [renderValue.eq_def]
        rw [hr]
        obtain ⟨c, t, hct, hdig⟩ :
            ∃ c t, renderInt n = c :: t ∧ (c.isDigit = true ∨ c = '-') := by
          cases n with
          | ofNat m =>
            obtain ⟨c, t, hct, hd⟩ := natChars_head m
            exact ⟨c, t, by rw [renderInt, hct], Or.inl hd⟩
          | negSucc m => exact ⟨'-', natChars (m + 1), by rw [renderInt], Or.inr rfl⟩
        rw [hct, parseValue.eq_def]
        simp only [List.cons_append]
        have hws : jsonWs c = false := by
          rcases hdig with h | h
          · exact (isDigit_not_special h).1
          · subst h; decide
        rw [skipWs_cons_not hws]
        have hfacts : ¬c = 'n' ∧ ¬c = 't' ∧ ¬c = 'f' ∧ ¬c = '"' ∧ ¬c = '[' ∧
            ¬c = '\x7b' := by
          rcases hdig with h | h
          · obtain ⟨_, _, _, _, a5, a6, a7, a8, a9, a10⟩ := isDigit_not_special h
            exact ⟨a5, a7, a6, a8, a10, a9⟩
          · subst h
            decide
        obtain ⟨hn, ht, hf, hq, hb, hc⟩ := hfacts
        simp only [if_neg hn, if_neg ht, if_neg hf, if_neg hq, if_neg hb, if_neg hc]
        rw [← List.cons_append, ← hct, parseIntChars_renderInt n rest hrest]
      | str s =>
        have hr : renderValue (Json.str s) d = renderString s := by
          rw [renderValue.eq_def]
        rw [hr, renderString_def, parseValue.eq_def]
        simp only [List.cons_append, List.append_assoc, List.nil_append]
        rw [skipWs_cons_not (by decide)]
        simp [parseStringBody_escape, string_mk_data]
      | arr xs =>
        cases xs with
        | nil =>
          have hr : renderValue (Json.arr .nil) d = ['[', ']'] := by
            rw [renderValue.eq_def]
          rw [hr, parseValue.eq_def]
          simp only [List.cons_append, List.nil_append]
          rw [skipWs_cons_not (by decide)]
          simp [skipWs_cons_not (show jsonWs ']' = false by decide)]
        | cons x xs =>
          have hr : renderValue (Json.arr (.cons x xs)) d
              = '[' :: '\n' :: (renderItems (.cons x xs) (d + 1) ++
                '\n' :: (indentChars d ++ [']'])) := by
            rw [renderValue.eq_def]
          rw [hr, parseValue.eq_def]
          simp only [List.cons_append, List.append_assoc, List.nil_append]
          rw [skipWs_cons_not (by decide)]
          obtain ⟨c2, r2, hsk, hne, _⟩ :=
            skipWs_renderItems_head x xs (d + 1) ('\n' :: (indentChars d ++ ']' :: rest))
          have hsk0 : skipWs ('\n' :: (renderItems (.cons x xs) (d + 1) ++
              ('\n' :: (indentChars d ++ ']' :: rest)))) = c2 :: r2 := by
            rw [skipWs_newline]
            exact hsk
          have hitems := ihI x xs (d + 1) (2 * d) rest (by
            rw [jsize_arr] at hsz
            omega)
          rw [indentChars] at hsk0 ⊢
          simp [hsk0, if_neg hne, hitems]
      | obj fs =>
        cases fs with
        | nil =>
          have hr : renderValue (Json.obj .nil) d = ['\x7b', '\x7d'] := by
            rw [renderValue.eq_def]
          rw [hr, parseValue.eq_def]
          simp only [List.cons_append, List.nil_append]
          rw [skipWs_cons_not (by decide)]
          simp [skipWs_cons_not (show jsonWs '\x7d' = false by decide)]
        | cons ky v fs =>
          have hr : renderValue (Json.obj (.cons ky v fs)) d
              = '\x7b' :: '\n' :: (renderFields (.cons ky v fs) (d + 1) ++
                '\n' :: (indentChars d ++ ['\x7d'])) := by
            rw [renderValue.eq_def]
          rw [hr, parseValue.eq_def]
          simp only [List.cons_append, List.append_assoc, List.nil_append]
          rw [skipWs_cons_not (by decide)]
          obtain ⟨t2, hsk⟩ :=
            skipWs_renderFields_head ky v fs (d + 1) ('\n' :: (indentChars d ++ '\x7d' :: rest))
          have hsk0 : skipWs ('\n' :: (renderFields (.cons ky v fs) (d + 1) ++
              ('\n' :: (indentChars d ++ '\x7d' :: rest))))
              = '"' :: (escapeList ky.data ++ '"' :: t2) := by
            rw [skipWs_newline]
            exact hsk
          have hfields := ihF ky v fs (d + 1) (2 * d) rest (by
            rw [jsize_obj] at hsz
            omega)
          rw [indentChars] at hsk0 ⊢
          simp [hsk0, hfields]
    · -- items
      intro x xs d k rest hsz
      rw [jsizeItems_cons] at hsz
      cases xs with
      | nil =>
        have hri : renderItems (.cons x .nil) d = indentChars d ++ renderValue x d := by
          rw [renderItems.eq_def]
        rw [parseItems.eq_def]
        have hcongr : skipWs ('\n' :: (renderItems (.cons x .nil) d ++
            '\n' :: (List.replicate k ' ' ++ ']' :: rest)))
            = skipWs (renderValue x d ++ ('\n' :: (List.replicate k ' ' ++ ']' :: rest))) := by
          rw [skipWs_newline, hri, List.append_assoc, skipWs_indentChars]
        have hpv : parseValue fuel ('\n' :: (renderItems (.cons x .nil) d ++
            '\n' :: (List.replicate k ' ' ++ ']' :: rest)))
            = some (x, '\n' :: (List.replicate k ' ' ++ ']' :: rest)) := by
          rw [parseValue_congr fuel _ _ hcongr]
          exact ihV x d _ (by omega) (by rw [noDigitHead_cons]; decide)
        have hskt : skipWs ('\n' :: (List.replicate k ' ' ++ ']' :: rest)) = ']' :: rest := by
          rw [skipWs_newline, skipWs_replicate_space, skipWs_cons_not (by decide)]
        simp [hpv, hskt]
      | cons y ys =>
        have hri : renderItems (.cons x (.cons y ys)) d
            = indentChars d ++ (renderValue x d ++ ',' :: '\n' :: renderItems (.cons y ys) d) := by
          rw [renderItems.eq_def]
        rw [parseItems.eq_def]
        have hcongr : skipWs ('\n' :: (renderItems (.cons x (.cons y ys)) d ++
            '\n' :: (List.replicate k ' ' ++ ']' :: rest)))
            = skipWs (renderValue x d ++ (',' :: '\n' :: (renderItems (.cons y ys) d ++
              '\n' :: (List.replicate k ' ' ++ ']' :: rest)))) := by
          rw [skipWs_newline, hri, List.append_assoc, skipWs_indentChars]
          simp [List.append_assoc]
        have hpv : parseValue fuel ('\n' :: (renderItems (.cons x (.cons y ys)) d ++
            '\n' :: (List.replicate k ' ' ++ ']' :: rest)))
            = some (x, ',' :: '\n' :: (renderItems (.cons y ys) d ++
              '\n' :: (List.replicate k ' ' ++ ']' :: rest))) := by
          rw [parseValue_congr fuel _ _ hcongr]
          exact ihV x d _ (by omega) (by rw [noDigitHead_cons]; decide)
        have hskt : skipWs (',' :: '\n' :: (renderItems (.cons y ys) d ++
            '\n' :: (List.replicate k ' ' ++ ']' :: rest)))
            = ',' :: '\n' :: (renderItems (.cons y ys) d ++
              '\n' :: (List.replicate k ' ' ++ ']' :: rest)) :=
          skipWs_cons_not (by decide) _
        have hrec := ihI y ys d k rest (by rw [jsizeItems_cons]; rw [jsizeItems_cons] at hsz; omega)
        simp [hpv, hskt, hrec]
    · -- fields
      intro ky v fs d k rest hsz
      rw [jsizeFields_cons] at hsz
      cases fs with
      | nil =>
        have hrf : renderFields (.cons ky v .nil) d
            = indentChars d ++ (renderString ky ++ ':' :: ' ' :: renderValue v d) := by
          rw [renderFields.eq_def]
        rw [parseFields.eq_def]
        have hsk : skipWs ('\n' :: (renderFields (.cons ky v .nil) d ++
            '\n' :: (List.replicate k ' ' ++ '\x7d' :: rest)))
            = '"' :: (escapeList ky.data ++ '"' :: (':' :: ' ' :: (renderValue v d ++
              '\n' :: (List.replicate k ' ' ++ '\x7d' :: rest)))) := by
          rw [skipWs_newline, hrf, List.append_assoc, skipWs_indentChars, renderString_def]
          simp only [List.cons_append, List.append_assoc, List.nil_append]
          rw [skipWs_cons_not (by decide)]
        have hsc : skipWs (':' :: ' ' :: (renderValue v d ++
            '\n' :: (List.replicate k ' ' ++ '\x7d' :: rest)))
            = ':' :: ' ' :: (renderValue v d ++
              '\n' :: (List.replicate k ' ' ++ '\x7d' :: rest)) :=
          skipWs_cons_not (by decide) _
        have hpv : parseValue fuel (' ' :: (renderValue v d ++
            '\n' :: (List.replicate k ' ' ++ '\x7d' :: rest)))
            = some (v, '\n' :: (List.replicate k ' ' ++ '\x7d' :: rest)) := by
          rw [parseValue_congr fuel _ _ (skipWs_cons_ws (by decide) _)]
          exact ihV v d _ (by omega) (by rw [noDigitHead_cons]; decide)
        have hskt : skipWs ('\n' :: (List.replicate k ' ' ++ '\x7d' :: rest))
            = '\x7d' :: rest := by
          rw [skipWs_newline, skipWs_replicate_space, skipWs_cons_not (by decide)]
        simp [hsk, parseStringBody_escape, hsc, hpv, hskt, string_mk_data]
      | cons k2 v2 fs2 =>
        have hrf : renderFields (.cons ky v (.cons k2 v2 fs2)) d
            = indentChars d ++ (renderString ky ++ ':' :: ' ' :: (renderValue v d ++
              ',' :: '\n' :: renderFields (.cons k2 v2 fs2) d)) := by
          rw [renderFields.eq_def]
        rw [parseFields.eq_def]
        have hsk : skipWs ('\n' :: (renderFields (.cons ky v (.cons k2 v2 fs2)) d ++
            '\n' :: (List.replicate k ' ' ++ '\x7d' :: rest)))
            = '"' :: (escapeList ky.data ++ '"' :: (':' :: ' ' :: (renderValue v d ++
              ',' :: '\n' :: (renderFields (.cons k2 v2 fs2) d ++
                '\n' :: (List.replicate k ' ' ++ '\x7d' :: rest))))) := by
          rw [skipWs_newline, hrf, List.append_assoc, skipWs_indentChars, renderString_def]
          simp only [List.cons_append, List.append_assoc, List.nil_append]
          rw [skipWs_cons_not (by decide)]
        have hsc : skipWs (':' :: ' ' :: (renderValue v d ++
            ',' :: '\n' :: (renderFields (.cons k2 v2 fs2) d ++
              '\n' :: (List.replicate k ' ' ++ '\x7d' :: rest))))
            = ':' :: ' ' :: (renderValue v d ++
              ',' :: '\n' :: (renderFields (.cons k2 v2 fs2) d ++
                '\n' :: (List.replicate k ' ' ++ '\x7d' :: rest))) :=
          skipWs_cons_not (by decide) _
        have hpv : parseValue fuel (' ' :: (renderValue v d ++
            ',' :: '\n' :: (renderFields (.cons k2 v2 fs2) d ++
              '\n' :: (List.replicate k ' ' ++ '\x7d' :: rest))))
            = some (v, ',' :: '\n' :: (renderFields (.cons k2 v2 fs2) d ++
              '\n' :: (List.replicate k ' ' ++ '\x7d' :: rest))) := by
          rw [parseValue_congr fuel _ _ (skipWs_cons_ws (by decide) _)]
          exact ihV v d _ (by omega) (by rw [noDigitHead_cons]; decide)
        have hskt : skipWs (',' :: '\n' :: (renderFields (.cons k2 v2 fs2) d ++
            '\n' :: (List.replicate k ' ' ++ '\x7d' :: rest)))
            = ',' :: '\n' :: (renderFields (.cons k2 v2 fs2) d ++
              '\n' :: (List.replicate k ' ' ++ '\x7d' :: rest)) :=
          skipWs_cons_not (by decide) _
        have hrec := ihF k2 v2 fs2 d k rest (by omega)
        simp [hsk, parseStringBody_escape, hsc, hpv, hskt, hrec, string_mk_data]

theorem jsize_le_length (fuel : Nat) :
    (∀ j d, jsize j ≤ fuel → jsize j ≤ (renderValue j d).length + 1) ∧
    (∀ x xs d, 1 ≤ d → jsizeItems (.cons x xs) ≤ fuel →
      jsizeItems (.cons x xs) ≤ (renderItems (.cons x xs) d).length + 1) ∧
    (∀ ky v fs d, 1 ≤ d → jsizeFields (.cons ky v fs) ≤ fuel →
      jsizeFields (.cons ky v fs) ≤ (renderFields (.cons ky v fs) d).length + 1) := by
  induction fuel with
  | zero =>
    refine And.intro ?_ (And.intro ?_ ?_)
    · intro j d hsz
      have := jsize_pos j
      omega
    · intro x xs d _ hsz
      rw [jsizeItems_cons] at hsz
      omega
    · intro ky v fs d _ hsz
      rw [jsizeFields_cons] at hsz
      omega
  | succ fuel ih =>
    obtain ⟨ihV, ihI, ihF⟩ := ih
    refine And.intro ?_ (And.intro ?_ ?_)
    · intro j d hsz
      cases j with
      | null => simp [jsize.eq_def]
      | bool b => simp [jsize.eq_def]
      | num n => simp [jsize.eq_def]
      | str s => simp [jsize.eq_def]
      | arr xs =>
        cases xs with
        | nil => simp [jsize.eq_def, jsizeItems.eq_def, renderValue.eq_def]
        | cons x xs =>
          rw [jsize_arr] at hsz ⊢
          have hI := ihI x xs (d + 1) (by omega) (by omega)
          have hr : renderValue (Json.arr (.cons x xs)) d
              = '[' :: '\n' :: (renderItems (.cons x xs) (d + 1) ++
                '\n' :: (indentChars d ++ [']'])) := by
            rw [renderValue.eq_def]
          rw [hr]
          simp only [List.length_cons, List.length_append, indentChars,
            List.length_replicate]
          omega
      | obj fs =>
        cases fs with
        | nil => simp [jsize.eq_def, jsizeFields.eq_def, renderValue.eq_def]
        | cons ky v fs =>
          rw [jsize_obj] at hsz ⊢
          have hF := ihF ky v fs (d + 1) (by omega) (by omega)
          have hr : renderValue (Json.obj (.cons ky v fs)) d
              = '\x7b' :: '\n' :: (renderFields (.cons ky v fs) (d + 1) ++
                '\n' :: (indentChars d ++ ['\x7d'])) := by
            rw [renderValue.eq_def]
          rw [hr]
          simp only [List.length_cons, List.length_append, indentChars,
            List.length_replicate]
          omega
    · intro x xs d hd hsz
      rw [jsizeItems_cons] at hsz ⊢
      cases xs with
      | nil =>
        have hV := ihV x d (by omega)
        have hr : renderItems (.cons x .nil) d = indentChars d ++ renderValue x d := by
          rw [renderItems.eq_def]
        rw [hr]
        have h0 : jsizeItems JsonItems.nil = 0 := by rw [jsizeItems.eq_def]
        simp only [List.length_append, indentChars, List.length_replicate, h0]
        omega
      | cons y ys =>
        have hV := ihV x d (by omega)
        have hI := ihI y ys d hd (by omega)
        rw [jsizeItems_cons] at hsz hI ⊢
        have hr : renderItems (.cons x (.cons y ys)) d
            = indentChars d ++ (renderValue x d ++ ',' :: '\n' ::
              renderItems (.cons y ys) d) := by
          rw [renderItems.eq_def]
        rw [hr]
        simp only [List.length_append, List.length_cons, indentChars,
          List.length_replicate]
        omega
    · intro ky v fs d hd hsz
      rw [jsizeFields_cons] at hsz ⊢
      cases fs with
      | nil =>
        have hV := ihV v d (by omega)
        have hr : renderFields (.cons ky v .nil) d
            = indentChars d ++ (renderString ky ++ ':' :: ' ' :: renderValue v d) := by
          rw [renderFields.eq_def]
        rw [hr]
        have h0 : jsizeFields JsonFields.nil = 0 := by rw [jsizeFields.eq_def]
        simp only [List.length_append, List.length_cons, indentChars,
          List.length_replicate, h0]
        omega
      | cons k2 v2 fs2 =>
        have hV := ihV v d (by omega)
        have hF := ihF k2 v2 fs2 d hd (by omega)
        rw [jsizeFields_cons] at hsz hF ⊢
        have hr : renderFields (.cons ky v (.cons k2 v2 fs2)) d
            = indentChars d ++ (renderString ky ++ ':' :: ' ' :: (renderValue v d ++
              ',' :: '\n' :: renderFields (.cons k2 v2 fs2) d)) := by
          rw [renderFields.eq_def]
        rw [hr]
        simp only [List.length_append, List.length_cons, indentChars,
          List.length_replicate]
        omega

/-- Serialize-then-deserialize is the identity on JSON values. -/
theorem parse_stringify (j : Json) : parseJsonText (stringifyJson j) = some j := by
  have hlen : jsize j ≤ (renderValue j 0).length + 1 :=
    (jsize_le_length (jsize j)).1 j 0 le_rfl
  have h := (parse_render_master ((renderValue j 0).length + 1)).1 j 0 [] hlen rfl
  rw [List.append_nil] at h
  show (match parseValue ((renderValue j 0).length + 1) (renderValue j 0) with
        | some (j, []) => some j
        | _ => none) = some j
  rw [h]

/-! ## Claim theorems -/

/-- C4 counterexample: the claim fails for string payloads. `formatResponse`
returns a string payload verbatim, so the wrapped text of the string payload
`"abc"` is not a serialization at all (no deserialization succeeds on it),
and the string payload `"null"` and the non-string payload `null` wrap to the
same text, so no deserializer can recover the original structure from the
wrapped text for every JSON-representable payload. -/
theorem formatText_string_breaks_roundtrip :
    parseJsonText (formatText (Json.str "abc")) = none ∧
    formatText (Json.str "null") = formatText Json.null ∧
    Json.str "null" ≠ Json.null := by
  refine ⟨by decide, by decide, ?_⟩
  intro h
  exact Json.noConfusion h

/-- C4 (amended): for every successful tool call whose remote payload is a
JSON-representable structure other than a string, the wrapped text content is
the exact serialization of the payload, and deserializing it yields the
original structure; a string payload is returned verbatim instead. -/
theorem formatResponse_roundtrip (j : Json) (h : j.isStr = false) :
    (formatResponse j).content = [{ type := "text", text := formatText j }] ∧
    formatText j = stringifyJson j ∧
    parseJsonText (formatText j) = some j := by
  have hft : formatText j = stringifyJson j := by
    cases j with
    | str s => simp [Json.isStr] at h
    | null => rfl
    | bool b => rfl
    | num n => rfl
    | arr xs => rfl
    | obj fs => rfl
  refine ⟨rfl, hft, ?_⟩
  rw [hft]
  exact parse_stringify j

/-- Witness for the C4 theorem at the concrete payload of the user scenario. -/
theorem formatResponse_roundtrip_witness :
    Json.isStr payload123 = false ∧
    (formatResponse payload123).content
      = [{ type := "text", text := formatText payload123 }] ∧
    formatText payload123 = stringifyJson payload123 ∧
    parseJsonText (formatText payload123) = some payload123 :=
  ⟨by decide, formatResponse_roundtrip payload123 (by decide)⟩

/-- C10: the static catalog lists 19 tools and every one of them has a
matching case in the call-tool dispatch switch, so no catalogued name ever
reaches the unknown-tool default branch (`runTool` is `none` exactly on the
default branch). -/
theorem toolCatalog_complete :
    toolCatalog.length = 19 ∧
    ∀ name ∈ toolCatalog, ∀ (c : ILevelClient) (t : HttpTransport) (args : Json),
      (runTool c t name args).isSome = true := by
  refine ⟨rfl, ?_⟩
  intro name h c t args
  fin_cases h <;> rfl

/-- Witness for C10 at a concrete catalogued tool name. -/
theorem toolCatalog_complete_witness :
    "custom_request" ∈ toolCatalog ∧
    (runTool (mkClient cfg0) transport0 "custom_request" (Json.obj .nil)).isSome = true :=
  ⟨by decide,
    toolCatalog_complete.2 "custom_request" (by decide) (mkClient cfg0) transport0
      (Json.obj .nil)⟩

/-- C1 (code bug): dispatching an unknown tool name throws
`McpError(MethodNotFound, ...)` inside the `try`, but the surrounding `catch`
routes it through `handleError`, which rewraps it as an `InternalError` whose
message is `Request failed: MCP error -32601: Unknown tool: ...`. The
method-not-found classification does not survive to the caller. -/
theorem unknownTool_reclassified :
    callTool (mkClient cfg0) transport0 "nonexistent_tool" (Json.obj .nil)
      = (.error ⟨.internalError,
          "Request failed: MCP error -32601: Unknown tool: nonexistent_tool"⟩, []) := by
  rfl

/-- C2: dispatching `get_user` with `userId = "123"` issues
`GET {base}/api/v1/users/123` (the single request of the call), and on a mock
200 response with body `⦃"id":"123","name":"Acme"⦄` the dispatcher returns a
single text content item whose text is exactly that payload pretty-printed. -/
theorem getUser_dispatch (cfg : ILevelConfig) (t : HttpTransport)
    (hv : cfg.apiVersion = none)
    (ht : t (userReq123 cfg) = .response 200 payload123) :
    callTool (mkClient cfg) t "get_user" args123
      = (.ok (formatResponse payload123), [userReq123 cfg]) ∧
    (userReq123 cfg).method = "GET" ∧
    (userReq123 cfg).url = cfg.baseUrl ++ "/api/v1/users/123" ∧
    (formatResponse payload123).content
      = [{ type := "text",
           text := "\x7b\n  \"id\": \"123\",\n  \"name\": \"Acme\"\n\x7d" }] := by
  have hax : axiosSend t (userReq123 cfg) = .ok payload123 := by
    unfold axiosSend
    rw [ht]
    simp
  have harg : getStrArg args123 "userId" = "123" := by decide
  have hpath : ("/users/" ++ "123" : String) = "/users/123" := by decide
  have hreq : (mkClient cfg).buildRequest "GET" ("/users/" ++ "123") none none
      = userReq123 cfg := by
    unfold userReq123
    rw [hpath]
  have hrun : runTool (mkClient cfg) t "get_user" args123
      = some (.ok (formatResponse payload123), [userReq123 cfg]) := by
    unfold runTool
    rw [if_neg (by decide), if_neg (by decide), if_pos rfl, harg]
    unfold mapFormat ILevelClient.getUser ILevelClient.call
    rw [hreq]
    simp only [hax]
    rfl
  refine ⟨?_, rfl, ?_, by decide⟩
  · unfold callTool
    rw [hrun]
  · show buildFullPath ((mkClient cfg).baseURL) "/users/123"
        = cfg.baseUrl ++ "/api/v1/users/123"
    rw [buildFullPath_relative ((mkClient cfg).baseURL) "/users/123"
      (clientBaseURL_ne_empty cfg) (by decide) (by decide)]
    have hbv : (mkClient cfg).baseURL = cfg.baseUrl ++ "/api/" ++ "v1" := by
      show cfg.baseUrl ++ "/api/" ++ (some (cfg.apiVersion.getD "v1")).getD "v1"
          = cfg.baseUrl ++ "/api/" ++ "v1"
      rw [hv]
      rfl
    rw [hbv, trimTrailing_append_v1, string_append_assoc, string_append_assoc]
    have hlit : ("/api/" ++ ("v1" ++ ("/" ++ trimLeadingSlashes "/users/123")) : String)
        = "/api/v1/users/123" := by decide
    rw [hlit]

/-- Witness for C2 with a concrete configuration and the mock transport. -/
theorem getUser_dispatch_witness :
    cfg0.apiVersion = none ∧
    transport123 (userReq123 cfg0) = .response 200 payload123 ∧
    (callTool (mkClient cfg0) transport123 "get_user" args123
      = (.ok (formatResponse payload123), [userReq123 cfg0]) ∧
    (userReq123 cfg0).method = "GET" ∧
    (userReq123 cfg0).url = cfg0.baseUrl ++ "/api/v1/users/123" ∧
    (formatResponse payload123).content
      = [{ type := "text",
           text := "\x7b\n  \"id\": \"123\",\n  \"name\": \"Acme\"\n\x7d" }]) :=
  ⟨rfl, rfl, getUser_dispatch cfg0 transport123 rfl rfl⟩

/-- The non-2xx branch of `handleError` classifies as an internal error and
its message carries the exact status code and the serialized response body. -/
theorem handleError_httpError_contains (status : Nat) (data : Json) :
    (handleError (.axios (.httpError status data))).code = .internalError ∧
    containsSub (handleError (.axios (.httpError status data))).message (toString status) ∧
    containsSub (handleError (.axios (.httpError status data))).message
      (stringifyCompact data) :=
  ⟨rfl,
    ⟨"iLevel API error: ", " - " ++ stringifyCompact data, string_append_assoc _ _ _⟩,
    containsSub_right _ _⟩

/-- C3: for every call-tool invocation of a catalogued tool where the remote
service answers with a non-2xx status, any surfaced error is the internal
error whose message contains that exact status code and the response body
text (the connectivity-probe tool surfaces no error at all, so the statement
is conditional on an error being surfaced). -/
theorem remoteError_message (cfg : ILevelConfig) (name : String) (args : Json)
    (status : Nat) (data : Json) (e : McpError)
    (hname : name ∈ toolCatalog)
    (hstatus : ¬(200 ≤ status ∧ status < 300))
    (he : (callTool (mkClient cfg) (fun _ => .response status data) name args).1
      = .error e) :
    e.code = .internalError ∧
    containsSub e.message (toString status) ∧
    containsSub e.message (stringifyCompact data) := by
  have hax : ∀ req, axiosSend (fun _ => .response status data) req
      = .error (.httpError status data) := by
    intro req
    unfold axiosSend
    simp [hstatus]
  fin_cases hname <;>
    (simp [callTool, runTool, ILevelClient.testConnection, ILevelClient.getUsers,
      ILevelClient.getUser, ILevelClient.getClients, ILevelClient.getClient,
      ILevelClient.getPortfolios, ILevelClient.getAssets, ILevelClient.getFunds,
      ILevelClient.getInvestments, ILevelClient.getDocuments, ILevelClient.getDocument,
      ILevelClient.getValuations, ILevelClient.createValuation, ILevelClient.queryData,
      ILevelClient.getWebhooks, ILevelClient.createWebhook, ILevelClient.deleteWebhook,
      ILevelClient.getCalculations, ILevelClient.genericRequest, ILevelClient.call,
      mapFormat, Except.map, hax] at he <;>
      exact he ▸ handleError_httpError_contains status data)

/-- Witness for C3: a 404 with a JSON body on a concrete catalogued tool. -/
theorem remoteError_message_witness :
    "get_user" ∈ toolCatalog ∧
    ¬(200 ≤ 404 ∧ 404 < 300) ∧
    (callTool (mkClient cfg0) (fun _ => .response 404 (Json.str "missing"))
        "get_user" args123).1
      = .error ⟨.internalError, "iLevel API error: 404 - \"missing\""⟩ ∧
    (ErrorCode.internalError = ErrorCode.internalError ∧
      containsSub "iLevel API error: 404 - \"missing\"" (toString 404) ∧
      containsSub "iLevel API error: 404 - \"missing\"" (stringifyCompact (Json.str "missing"))) :=
  ⟨by decide, by decide, rfl,
    remoteError_message cfg0 "get_user" args123 404 (Json.str "missing")
      ⟨.internalError, "iLevel API error: 404 - \"missing\""⟩
      (by decide) (by decide) rfl⟩

/-- C5: if any required environment input (base URL, username, password) is
absent at startup, the process exits with code 1 and no HTTP request is ever
issued. -/
theorem missingEnv_exits (env : ServerEnv) (t : HttpTransport)
    (h : env.baseUrl = none ∨ env.username = none ∨ env.password = none) :
    startServer env t = (.exited 1, []) := by
  have hv : validateEnv env = none := by
    unfold validateEnv
    rcases h with h | h | h
    · rw [h]
    · rw [h]
      cases env.baseUrl <;> rfl
    · rw [h]
      cases env.baseUrl <;> cases env.username <;> rfl
  unfold startServer
  rw [hv]

/-- Witness for C5: password unset, the other inputs present. -/
theorem missingEnv_exits_witness :
    envMissing.password = none ∧
    startServer envMissing transport0 = (.exited 1, []) :=
  ⟨rfl, missingEnv_exits envMissing transport0 (Or.inr (Or.inr rfl))⟩

/-- C6: the connectivity probe issues exactly one GET request and returns
`true` precisely when that request yields a 2xx response; every failure path
(non-2xx response, missing response or timeout, request setup failure) is
swallowed into `false`; no error value escapes. -/
theorem testConnection_spec (c : ILevelClient) (t : HttpTransport) :
    ((c.testConnection t).1 = true ↔
      (∃ status data, t (c.buildRequest "GET" "/users" none none) = .response status data ∧
        200 ≤ status ∧ status < 300)) ∧
    (c.testConnection t).2 = [c.buildRequest "GET" "/users" none none] := by
  constructor
  · unfold ILevelClient.testConnection ILevelClient.call
    rcases hr : t (c.buildRequest "GET" "/users" none none) with ⟨status, data⟩ | _ | m
    · by_cases h2 : 200 ≤ status ∧ status < 300
      · simp only [axiosSend, hr, if_pos h2]
        constructor
        · intro _
          exact ⟨status, data, rfl, h2.1, h2.2⟩
        · intro _
          trivial
      · simp only [axiosSend, hr, if_neg h2]
        constructor
        · intro hfalse
          exact absurd hfalse (by simp)
        · rintro ⟨s, d, hsd, hs1, hs2⟩
          injection hsd with h1 h2'
          subst h1
          exact absurd ⟨hs1, hs2⟩ h2
    · simp only [axiosSend, hr]
      constructor
      · intro hfalse
        exact absurd hfalse (by simp)
      · rintro ⟨s, d, hsd, _, _⟩
        exact HttpResult.noConfusion hsd
    · simp only [axiosSend, hr]
      constructor
      · intro hfalse
        exact absurd hfalse (by simp)
      · rintro ⟨s, d, hsd, _, _⟩
        exact HttpResult.noConfusion hsd
  · rfl

/-- C7: reading the single recognized resource URI returns the serialized
configuration snapshot with exactly the fields baseUrl, username, isSandbox,
apiVersion (no password); any other URI fails with the invalid-request
classification; no HTTP request is issued either way. -/
theorem readResource_spec (cfg : ILevelConfig) (b : Bool) (uri : String)
    (hs : cfg.isSandbox = some b) :
    (readResource cfg uri).2 = [] ∧
    (uri = "ilevel://config" →
      readResource cfg uri
        = (.ok ⟨[⟨uri, "application/json",
            stringifyJson (configSnapshotJson cfg)⟩]⟩, []) ∧
      configSnapshotJson cfg
        = .obj (.cons "baseUrl" (.str cfg.baseUrl)
            (.cons "username" (.str cfg.username)
              (.cons "isSandbox" (.bool b)
                (.cons "apiVersion" (.str (cfg.apiVersion.getD "v1")) .nil))))) ∧
    (uri ≠ "ilevel://config" →
      readResource cfg uri = (.error ⟨.invalidRequest, "Unknown resource: " ++ uri⟩, [])) := by
  refine And.intro ?_ (And.intro ?_ ?_)
  · unfold readResource
    by_cases h : uri = "ilevel://config"
    · rw [if_pos h]
    · rw [if_neg h]
  · intro h
    subst h
    refine ⟨by unfold readResource; rw [if_pos rfl], ?_⟩
    unfold configSnapshotJson withSandboxField
    rw [hs]
  · intro h
    unfold readResource
    rw [if_neg h]

/-- Witness for C7 with an unrecognized URI and a sandbox-bearing config. -/
theorem readResource_spec_witness :
    cfg0.isSandbox = some false ∧
    ((readResource cfg0 "bad://uri").2 = [] ∧
    ("bad://uri" = "ilevel://config" →
      readResource cfg0 "bad://uri"
        = (.ok ⟨[⟨"bad://uri", "application/json",
            stringifyJson (configSnapshotJson cfg0)⟩]⟩, []) ∧
      configSnapshotJson cfg0
        = .obj (.cons "baseUrl" (.str cfg0.baseUrl)
            (.cons "username" (.str cfg0.username)
              (.cons "isSandbox" (.bool false)
                (.cons "apiVersion" (.str (cfg0.apiVersion.getD "v1")) .nil))))) ∧
    ("bad://uri" ≠ "ilevel://config" →
      readResource cfg0 "bad://uri"
        = (.error ⟨.invalidRequest, "Unknown resource: " ++ "bad://uri"⟩, []))) :=
  ⟨rfl, readResource_spec cfg0 false "bad://uri" rfl⟩

/-- The request trace of a dispatch is the trace recorded by the matched
switch case (empty on the default branch). -/
theorem callTool_trace (c : ILevelClient) (t : HttpTransport) (name : String)
    (args : Json) :
    (callTool c t name args).2 = (runTool c t name args).elim [] Prod.snd := by
  unfold callTool
  rcases h : runTool c t name args with _ | ⟨res, trace⟩
  · rfl
  · cases res <;> rfl

/-- C8 (counterexample to the original claim): dispatching `custom_request`
with the absolute endpoint `https://evil.example/x` issues a request whose
URL is that absolute URL itself, because axios's `buildFullPath` bypasses the
instance `baseURL` whenever the requested URL is absolute; that URL does not
extend the configured base path `baseUrl ++ "/api/" ++ version`. -/
theorem absoluteEndpoint_escapes_basePath :
    "custom_request" ∈ toolCatalog ∧
    (callTool (mkClient cfg0) transport0 "custom_request" argsEvil).2
      = [(mkClient cfg0).buildRequest "GET" "https://evil.example/x" none none] ∧
    ((mkClient cfg0).buildRequest "GET" "https://evil.example/x" none none).url
      = "https://evil.example/x" ∧
    ¬∃ tail, ((mkClient cfg0).buildRequest "GET" "https://evil.example/x" none none).url
        = cfg0.baseUrl ++ "/api/" ++ cfg0.apiVersion.getD "v1" ++ tail := by
  refine ⟨by decide, rfl, by decide, ?_⟩
  rintro ⟨tail, htail⟩
  have hlen := congrArg String.length htail
  rw [string_length_append] at hlen
  rw [show ((mkClient cfg0).buildRequest "GET" "https://evil.example/x"
      none none).url.length = 22 from by decide] at hlen
  rw [show (cfg0.baseUrl ++ "/api/" ++ cfg0.apiVersion.getD "v1").length = 35
      from by decide] at hlen
  omega

/-- C8 (amended): every HTTP request issued by any catalogued tool dispatch
carries Basic authentication from the configured username/password, JSON
content-type and accept headers, and the fixed 30-second timeout; and its
URL either is itself an absolute URL (possible only for the generic
`custom_request` passthrough, whose endpoint axios then requests verbatim,
bypassing the instance base URL) or lies under the configured base path
`baseUrl ++ "/api/" ++ version` (version defaulting to `"v1"`, the base
taken up to axios's trailing-slash normalization in `combineURLs`). -/
theorem outboundRequest_config (cfg : ILevelConfig) (t : HttpTransport)
    (name : String) (args : Json) (hname : name ∈ toolCatalog) :
    ∀ req ∈ (callTool (mkClient cfg) t name args).2,
      req.username = cfg.username ∧ req.password = cfg.password ∧
      req.contentType = "application/json" ∧ req.accept = "application/json" ∧
      req.timeoutMs = 30000 ∧
      (isAbsoluteURL req.url = true ∨
        ∃ tail, req.url
          = trimTrailingSlashes (cfg.baseUrl ++ "/api/" ++ cfg.apiVersion.getD "v1")
            ++ tail) := by
  have hb := clientBaseURL_ne_empty cfg
  fin_cases hname <;>
    (intro req hreq
     rw [callTool_trace] at hreq
     simp [runTool, ILevelClient.testConnection, ILevelClient.getUsers,
       ILevelClient.getUser, ILevelClient.getClients, ILevelClient.getClient,
       ILevelClient.getPortfolios, ILevelClient.getAssets, ILevelClient.getFunds,
       ILevelClient.getInvestments, ILevelClient.getDocuments, ILevelClient.getDocument,
       ILevelClient.getValuations, ILevelClient.createValuation, ILevelClient.queryData,
       ILevelClient.getWebhooks, ILevelClient.createWebhook, ILevelClient.deleteWebhook,
       ILevelClient.getCalculations, ILevelClient.genericRequest, ILevelClient.call,
       mapFormat] at hreq
     subst hreq
     refine ⟨rfl, rfl, rfl, rfl, rfl, ?_⟩
     first
       | exact Or.inr ⟨_, buildFullPath_relative _ _ hb (by decide) (by decide)⟩
       | exact Or.inr ⟨_, buildFullPath_relative _ _ hb rfl
           (append_ne_empty_left _ _ (by decide))⟩
       | (cases habs : isAbsoluteURL (getStrArg args "endpoint") with
          | true =>
              refine Or.inl ?_
              show isAbsoluteURL (buildFullPath ((mkClient cfg).baseURL)
                (getStrArg args "endpoint")) = true
              unfold buildFullPath
              rw [if_neg (by simp [habs])]
              exact habs
          | false =>
              refine Or.inr ?_
              by_cases hpe : getStrArg args "endpoint" = ""
              · rcases trimTrailing_decomp ((mkClient cfg).baseURL) with ⟨tl, htl⟩
                refine ⟨tl, ?_⟩
                show buildFullPath ((mkClient cfg).baseURL) (getStrArg args "endpoint")
                  = trimTrailingSlashes ((mkClient cfg).baseURL) ++ tl
                unfold buildFullPath
                rw [if_pos (And.intro hb habs)]
                unfold combineURLs
                rw [if_neg (fun hne => hne hpe)]
                exact htl
              · exact ⟨_, buildFullPath_relative _ _ hb habs hpe⟩))

/-- Witness for C8 on a concrete catalogued tool. -/
theorem outboundRequest_config_witness :
    "get_webhooks" ∈ toolCatalog ∧
    ∀ req ∈ (callTool (mkClient cfg0) transport0 "get_webhooks" (Json.obj .nil)).2,
      req.username = cfg0.username ∧ req.password = cfg0.password ∧
      req.contentType = "application/json" ∧ req.accept = "application/json" ∧
      req.timeoutMs = 30000 ∧
      (isAbsoluteURL req.url = true ∨
        ∃ tail, req.url
          = trimTrailingSlashes (cfg0.baseUrl ++ "/api/" ++ cfg0.apiVersion.getD "v1")
            ++ tail) :=
  ⟨by decide,
    outboundRequest_config cfg0 transport0 "get_webhooks" (Json.obj .nil) (by decide)⟩

/-- C9: the client constructor copies the configuration record (object
spread) rather than mutating it: a startup configuration carries no
`apiVersion` field, the client's internal copy resolves it to `"v1"`, and the
caller-held record still has none, so the config resource's own
`|| 'v1'` fallback is what reports `"v1"`. -/
theorem constructor_copies_config (env : ServerEnv) (cfg : ILevelConfig)
    (h : validateEnv env = some cfg) :
    cfg.apiVersion = none ∧
    (mkClient cfg).config.apiVersion = some "v1" ∧
    (configSnapshotJson cfg).getField "apiVersion" = some (.str "v1") := by
  unfold validateEnv at h
  split at h
  · split at h
    · exact Option.noConfusion h
    · injection h with h
      subst h
      exact ⟨rfl, rfl, rfl⟩
  · exact Option.noConfusion h

/-- Witness for C9 on a concrete validated environment. -/
theorem constructor_copies_config_witness :
    validateEnv envOk = some cfgOk ∧
    (cfgOk.apiVersion = none ∧
     (mkClient cfgOk).config.apiVersion = some "v1" ∧
     (configSnapshotJson cfgOk).getField "apiVersion" = some (.str "v1")) :=
  ⟨by decide, constructor_copies_config envOk cfgOk (by decide)⟩
